import Mathlib

/-! Verification development for the mud multipath UDP tunnel engine (mud.c).

The engine is shallowly embedded: machine integers are `Nat`/`Int` with
explicit reductions modulo `2 ^ 64` (C `uint64_t`), `2 ^ 63` boundaries for
`int64_t` reinterpretation, and `2 ^ 32` for C `int` truncation.  Network
addresses are abstracted to opaque `Nat` identifiers (the engine only ever
compares them for equality when looking up a path).  The libsodium
primitives (the two AEAD ciphers, X25519, and the keyed generic hash) are
external to the repository; they are modelled as an explicit parameter
record `Prims`, so every theorem quantifies over the primitives and only
uses the properties it states.  Effectful pieces (the clock read per loop
iteration, `randombytes_buf`) are passed as explicit arguments.  A
`sendmsg` call is modelled as an emission event; `sendmsg` is assumed to
report full success (its return value is otherwise discarded by the code
paths under study). -/

set_option maxHeartbeats 1000000
set_option maxRecDepth 8000

namespace MudModel

/-- Reduce modulo 2^64, as storing into a C `uint64_t` does. -/
def mod64 (x : Nat) : Nat := x % 2 ^ 64

/-- C `uint64_t` subtraction `a - b` (wrapping). -/
def sub64 (a b : Nat) : Nat := (a % 2 ^ 64 + (2 ^ 64 - b % 2 ^ 64)) % 2 ^ 64

/-- Reinterpret a 64-bit unsigned value as C `int64_t`. -/
def toInt64 (x : Nat) : Int :=
  if x % 2 ^ 64 < 2 ^ 63 then (x % 2 ^ 64 : Int) else (x % 2 ^ 64 : Int) - 2 ^ 64

/-- Convert a C `int64_t`/`int` value to `uint64_t`/`size_t` (two's complement). -/
def toUInt64 (i : Int) : Nat := (i % (2 ^ 64 : Int)).toNat

/-- Truncate an unsigned value to C `int` (32-bit, two's complement). -/
def toInt32 (x : Nat) : Int :=
  if x % 2 ^ 32 < 2 ^ 31 then (x % 2 ^ 32 : Int) else (x % 2 ^ 32 : Int) - 2 ^ 32

def MUD_ONE_MSEC : Nat := 1000
def MUD_ONE_SEC : Nat := 1000 * MUD_ONE_MSEC
def MUD_ONE_MIN : Nat := 60 * MUD_ONE_SEC
def MUD_PONG_TIMEOUT : Nat := 100 * MUD_ONE_MSEC
def MUD_KEYX_TIMEOUT : Nat := 60 * MUD_ONE_MIN
def MUD_SEND_TIMEOUT : Nat := MUD_ONE_SEC
def MUD_TIME_TOLERANCE : Nat := 10 * MUD_ONE_MIN

/-- `INT64_MAX`, the initial value of `limit_min` in `mud_send`. -/
def INT64MAX : Int := 2 ^ 63 - 1

/-- `mud_write48`: serialize the low 48 bits of a `uint64_t`, low byte first. -/
def write48 (v : Nat) : List Nat :=
  [v % 2 ^ 64 % 256, v % 2 ^ 64 / 2 ^ 8 % 256, v % 2 ^ 64 / 2 ^ 16 % 256,
   v % 2 ^ 64 / 2 ^ 24 % 256, v % 2 ^ 64 / 2 ^ 32 % 256, v % 2 ^ 64 / 2 ^ 40 % 256]

/-- `mud_read48`: deserialize six bytes, low byte first. -/
def read48 (l : List Nat) : Nat :=
  l.getD 0 0 + l.getD 1 0 * 2 ^ 8 + l.getD 2 0 * 2 ^ 16 + l.getD 3 0 * 2 ^ 24 +
    l.getD 4 0 * 2 ^ 32 + l.getD 5 0 * 2 ^ 40

/-- `mud_abs_diff`. -/
def absDiff (a b : Nat) : Nat := if b ≤ a then a - b else b - a

/-- `mud_timeout (now, last, timeout)`: true when `last` is unset, or `now`
is past `last` by at least `timeout`. -/
def mudTimeout (now last timeout : Nat) : Prop :=
  last = 0 ∨ (last < now ∧ timeout ≤ now - last)

instance (now last timeout : Nat) : Decidable (mudTimeout now last timeout) := by
  unfold mudTimeout; infer_instance

/-- One key slot (`struct crypto_key`).  The precomputed AES-GCM state is a
pure function of the 32-byte key, so it is represented by the key bytes. -/
structure CryptoSlot where
  encryptKey : List Nat
  decryptKey : List Nat
  aes : Bool
deriving DecidableEq

/-- The crypto ring of `struct mud` (`mud->crypto`). -/
structure CryptoRing where
  recvTime : Nat
  sendTime : Nat
  secret : List Nat
  publicSend : List Nat
  publicRecv : List Nat
  priv : CryptoSlot
  last : CryptoSlot
  next : CryptoSlot
  current : CryptoSlot
  useNext : Bool
  aes : Bool
  badKey : Bool
deriving DecidableEq

/-- `mud->mtu` (`localMtu` models the C field `local`; both are C `int`). -/
structure MtuState where
  sendTime : Nat
  remote : Int
  localMtu : Int
deriving DecidableEq

/-- A `struct path`.  Addresses are abstract identifiers; the `ctrl`/`tc`
ancillary buffer is kernel plumbing with no protocol-visible state. -/
structure Path where
  active : Bool
  bakSendTime : Nat
  bakRemote : Int
  bakLocal : Bool
  rdt : Nat
  rtt : Nat
  sdt : Nat
  rst : Nat
  rSdt : Nat
  rRdt : Nat
  rRst : Nat
  rDt : Int
  limit : Nat
  recvTime : Nat
  sendTime : Nat
  pongTime : Nat
  localAddr : Nat
  remoteAddr : Nat
deriving DecidableEq

/-- A freshly `calloc`ed path (all fields zero). -/
def Path.zero : Path :=
  { active := false, bakSendTime := 0, bakRemote := 0, bakLocal := false,
    rdt := 0, rtt := 0, sdt := 0, rst := 0, rSdt := 0, rRdt := 0, rRst := 0,
    rDt := 0, limit := 0, recvTime := 0, sendTime := 0, pongTime := 0,
    localAddr := 0, remoteAddr := 0 }

/-- Path creation (`mud_path` with `create`, plus `mud_set_path`). -/
def newPath (la ra : Nat) : Path :=
  { Path.zero with localAddr := la, remoteAddr := ra }

/-- The engine (`struct mud`); the socket fd is pure I/O plumbing. -/
structure Mud where
  sendTimeout : Nat
  timeTolerance : Nat
  paths : List Path
  crypto : CryptoRing
  mtu : MtuState
deriving DecidableEq

/-- The external cryptographic primitives (libsodium).  `enc aes key npub
ad msg` returns ciphertext-plus-tag bytes; `dec` returns the plaintext or
fails; `scalarmult` returns `none` when `crypto_scalarmult` reports
failure; `hash salt msg` is the keyed generic hash. -/
structure Prims where
  enc : Bool → List Nat → List Nat → List Nat → List Nat → List Nat
  dec : Bool → List Nat → List Nat → List Nat → List Nat → Option (List Nat)
  scalarmultBase : List Nat → List Nat
  scalarmult : List Nat → List Nat → Option (List Nat)
  hash : List Nat → List Nat → List Nat

/-- A correct AEAD: decryption inverts encryption under the same key, nonce
and associated data, and the tag adds 16 bytes. -/
def AEADCorrect (P : Prims) : Prop :=
  ∀ aes k n a m, P.dec aes k n a (P.enc aes k n a m) = some m ∧
    (P.enc aes k n a m).length = m.length + 16

/-- `mud_keyx_init`: draw a fresh ephemeral secret (`fresh` stands for the
`randombytes_buf` output), derive `public.send` with its trailing AES flag
byte, zero `public.recv`. -/
def mudKeyxInit (P : Prims) (c : CryptoRing) (fresh : List Nat) : CryptoRing :=
  { c with secret := fresh,
           publicSend := P.scalarmultBase fresh ++ [if c.aes then 1 else 0],
           publicRecv := List.replicate 33 0 }

/-- The slot promotion performed by `mud_decrypt` when `next` decrypts:
re-key the ephemeral pair, then `last := current`, `current := next`,
clear `use_next`. -/
def mudPromote (P : Prims) (c : CryptoRing) (fresh : List Nat) : CryptoRing :=
  { mudKeyxInit P c fresh with
      last := c.current, current := c.next, useNext := false }

/-- `mud_encrypt`: returns `none` where the C function returns 0.  The
frame is the 6 nonce bytes followed by the AEAD output; the nonce bytes are
the associated data and the first 6 bytes of the 16-byte AEAD nonce. -/
def mudEncrypt (P : Prims) (c : CryptoRing) (nonce : Nat) (dstSize : Nat)
    (src : List Nat) : Option (List Nat) :=
  if nonce = 0 then none
  else if src.length + 22 > dstSize then none
  else
    let npub := write48 nonce ++ List.replicate 10 0
    let slot := if c.useNext then c.next else c.current
    some (write48 nonce ++ P.enc slot.aes slot.encryptKey npub (write48 nonce) src)

/-- `mud_decrypt`: try `current`, `next` (promoting on success), `last`,
`private`, in that order.  Returns the C return value, the plaintext
written to `dst` (if any), and the updated crypto ring. -/
def mudDecrypt (P : Prims) (fresh : List Nat) (c : CryptoRing) (bufSize : Nat)
    (src : List Nat) : Int × Option (List Nat) × CryptoRing :=
  let size := sub64 src.length 22
  if size > bufSize then (0, none, c)
  else
    let npub := src.take 6 ++ List.replicate 10 0
    let ad := src.take 6
    let ct := src.drop 6
    match P.dec c.current.aes c.current.decryptKey npub ad ct with
    | some m => (Int.ofNat size, some m, c)
    | none =>
      match P.dec c.next.aes c.next.decryptKey npub ad ct with
      | some m => (Int.ofNat size, some m, mudPromote P c fresh)
      | none =>
        match P.dec c.last.aes c.last.decryptKey npub ad ct with
        | some m => (Int.ofNat size, some m, c)
        | none =>
          match P.dec c.priv.aes c.priv.decryptKey npub ad ct with
          | some m => (Int.ofNat size, some m, c)
          | none => (-1, none, c)

/-- The ring state established by `mud_set_key`: all four slots hold the
same symmetric long-term key (the "one key" configuration). -/
def oneKeyRing (c : CryptoRing) : Prop :=
  c.current = c.priv ∧ c.next = c.priv ∧ c.last = c.priv ∧
    c.priv.decryptKey = c.priv.encryptKey

/-- `mud_recv_keyx` on payload `data` = `peer_send(33) ‖ peer_recv(33)`.
Returns the updated ring and whether a keyx reply was emitted
(`sync_send`).  Note the source overwrites the received `peer_recv` with
the local `public.send` before composing the keying blobs. -/
def mudRecvKeyx (P : Prims) (c : CryptoRing) (now : Nat) (data : List Nat) :
    CryptoRing × Bool :=
  let peerSend := data.take 33
  let peerRecv := (data.drop 33).take 33
  let syncSend : Bool := decide (peerRecv ≠ c.publicSend)
  let c1 := { c with publicRecv := peerSend, useNext := !syncSend }
  match P.scalarmult c.secret (peerSend.take 32) with
  | none => (c1, syncSend)
  | some sec =>
    let encKey := P.hash c.priv.encryptKey (sec ++ c.publicSend ++ peerSend)
    let decKey := P.hash c.priv.encryptKey (sec ++ peerSend ++ c.publicSend)
    let aesNext : Bool := (peerSend.getD 32 0 == 1) && (c.publicSend.getD 32 0 == 1)
    ({ c1 with next := ⟨encKey, decKey, aesNext⟩, recvTime := now }, syncSend)

/-- The five control message kinds.  The wire encoding distinguishes them
by total packet length; emissions are recorded by kind. -/
inductive CtrlKind
  | ping
  | pong
  | keyx
  | mtux
  | bakx
deriving DecidableEq

inductive Errno
  | emsgsize
  | einval
deriving DecidableEq

/-- Path lookup (`mud_path` without `create`): first entry matching both
the local and the remote address, with its position in the list. -/
def findPath : List Path → Nat → Nat → Option (Nat × Path)
  | [], _, _ => none
  | p :: ps, la, ra =>
    if p.localAddr = la ∧ p.remoteAddr = ra then some (0, p)
    else (findPath ps la ra).map (fun ip => (ip.1 + 1, ip.2))

/-- The per-path bookkeeping block of `mud_recv` (source lines 1001-1017):
EWMA or initialization of `rdt`/`sdt`, `rst := send_time`, the pong
decision, and `recv_time := now`.  Returns the updated path and whether a
pong was emitted (a pong also stamps `pong_time` and, through
`mud_send_path`, `send_time`). -/
def mudRecvPathUpdate (p : Path) (now sendTime : Nat) : Path × Bool :=
  let p1 :=
    if p.rdt ≠ 0 then
      { p with rdt := (sub64 now p.recvTime + 7 * p.rdt) % 2 ^ 64 / 8,
               sdt := (sub64 sendTime p.rst + 7 * p.sdt) % 2 ^ 64 / 8 }
    else if p.recvTime ≠ 0 then
      { p with rdt := sub64 now p.recvTime, sdt := sub64 sendTime p.rst }
    else p
  let p2 := { p1 with rst := sendTime }
  if ¬p.bakLocal ∧ p.recvTime ≠ 0 ∧ mudTimeout now p.pongTime MUD_PONG_TIMEOUT then
    ({ p2 with pongTime := now, sendTime := now, recvTime := now }, true)
  else
    ({ p2 with recvTime := now }, false)

/-- The send-time field of an incoming datagram: bytes 6..12 for a control
packet (leading six zero bytes), bytes 0..6 otherwise. -/
def sendTimeOf (packet : List Nat) : Nat :=
  if read48 packet = 0 then read48 (packet.drop 6) else read48 packet

/-- Dispatch of `mud_recv` for a control packet once a path is known:
timing update, then control dispatch by total length.  `i` is the position
of `p` in `mud.paths`. -/
def mudRecvCtrlPath (P : Prims) (mud : Mud) (i : Nat) (p : Path)
    (now sendTime : Nat) (packet : List Nat) :
    Int × Option (List Nat) × Mud × List CtrlKind :=
  let u := mudRecvPathUpdate p now sendTime
  let p1 := u.1
  let reps := if u.2 then [CtrlKind.pong] else []
  if packet.length = 94 then
    let kx := mudRecvKeyx P mud.crypto now ((packet.drop 12).take 66)
    let p2 := if kx.2 then { p1 with sendTime := now } else p1
    (0, none, { mud with crypto := kx.1, paths := mud.paths.set i p2 },
      reps ++ if kx.2 then [CtrlKind.keyx] else [])
  else if packet.length = 34 then
    let p2 := if p1.active then p1 else { p1 with sendTime := now }
    (0, none,
      { mud with mtu := { mud.mtu with remote := toInt32 (read48 (packet.drop 12)) },
                 paths := mud.paths.set i p2 },
      reps ++ if p1.active then [] else [CtrlKind.mtux])
  else if packet.length = 46 then
    let rr := read48 (packet.drop 24)
    let p2 := { p1 with rSdt := read48 (packet.drop 12), rRdt := read48 (packet.drop 18),
                        rRst := rr, rDt := toInt64 (sub64 sendTime rr),
                        rtt := sub64 now rr }
    (0, none, { mud with paths := mud.paths.set i p2 }, reps)
  else if packet.length = 29 then
    let p2 := { p1 with bakLocal := true, bakRemote := Int.ofNat (packet.getD 12 0) }
    let p3 := if p2.active then p2 else { p2 with sendTime := now }
    (0, none, { mud with paths := mud.paths.set i p3 },
      reps ++ if p2.active then [] else [CtrlKind.bakx])
  else (0, none, { mud with paths := mud.paths.set i p1 }, reps)

/-- Dispatch of `mud_recv` for a data packet on a known path: timing
update, then decrypt; on total failure set `bad_key` and return 0. -/
def mudRecvDataPath (P : Prims) (mud : Mud) (i : Nat) (p : Path)
    (now sendTime : Nat) (packet : List Nat) (bufSize : Nat) (fresh : List Nat) :
    Int × Option (List Nat) × Mud × List CtrlKind :=
  let u := mudRecvPathUpdate p now sendTime
  let p1 := u.1
  let reps := if u.2 then [CtrlKind.pong] else []
  let r := mudDecrypt P fresh mud.crypto bufSize packet
  if r.1 = -1 then
    (0, none, { mud with crypto := { r.2.2 with badKey := true },
                         paths := mud.paths.set i p1 }, reps)
  else
    (r.1, r.2.1, { mud with crypto := r.2.2, paths := mud.paths.set i p1 }, reps)

/-- `mud_recv`.  The datagram is `packet`; `localAddr` is the pktinfo
destination address (`none` when the cmsg is absent); `remoteAddr` the
source address; `bufSize` the caller's buffer size; `fresh` the bytes a
`randombytes_buf` inside a slot promotion would draw.  Returns the C
return value, the plaintext delivered to the caller, the new engine state,
and the control messages emitted on the receiving path. -/
def mudRecv (P : Prims) (mud : Mud) (now : Nat) (packet : List Nat)
    (localAddr : Option Nat) (remoteAddr : Nat) (bufSize : Nat) (fresh : List Nat) :
    Int × Option (List Nat) × Mud × List CtrlKind :=
  if packet.length ≤ 22 then (0, none, mud, [])
  else if read48 packet = 0 ∧ packet.length < 28 then (0, none, mud, [])
  else if mud.timeTolerance ≤ absDiff now (sendTimeOf packet) then (0, none, mud, [])
  else if read48 packet = 0 ∧ (P.dec mud.crypto.priv.aes mud.crypto.priv.decryptKey
        (List.replicate 16 0) (packet.take (packet.length - 16))
        (packet.drop (packet.length - 16))).isNone then (0, none, mud, [])
  else
    match localAddr with
    | none => (0, none, mud, [])
    | some la =>
      match findPath mud.paths la remoteAddr with
      | some ip =>
        if read48 packet = 0 then
          mudRecvCtrlPath P mud ip.1 ip.2 now (sendTimeOf packet) packet
        else
          mudRecvDataPath P mud ip.1 ip.2 now (sendTimeOf packet) packet bufSize fresh
      | none =>
        if read48 packet = 0 then
          mudRecvCtrlPath P { mud with paths := newPath la remoteAddr :: mud.paths } 0
            (newPath la remoteAddr) now (sendTimeOf packet) packet
        else (0, none, mud, [])

/-- `mud_get_mtu`: the local MTU, or the remote one when it is known and
smaller. -/
def mudGetMtu (m : Mud) : Int :=
  if m.mtu.remote = 0 ∨ m.mtu.localMtu < m.mtu.remote then m.mtu.localMtu
  else m.mtu.remote

/-- The body of the `mud_send_ctrl` loop for one path: pick at most one
control message, with the source's side effects on the crypto/MTU clocks
and the path.  Every emission stamps the path's `send_time` (through
`mud_send_path`). -/
def ctrlStep (c : CryptoRing) (m : MtuState) (st : Nat) (p : Path) (now : Nat) :
    CryptoRing × MtuState × Path × Option CtrlKind :=
  if ¬p.active then
    if c.badKey = true ∧ mudTimeout now c.sendTime st then
      ({ c with sendTime := now, badKey := false }, m,
        { p with sendTime := now }, some CtrlKind.keyx)
    else (c, m, p, none)
  else if mudTimeout now c.sendTime st ∧ mudTimeout now c.recvTime MUD_KEYX_TIMEOUT then
    ({ c with sendTime := now }, m, { p with sendTime := now }, some CtrlKind.keyx)
  else if m.remote = 0 ∧ mudTimeout now m.sendTime st then
    (c, { m with sendTime := now }, { p with sendTime := now }, some CtrlKind.mtux)
  else if p.bakLocal = true ∧ p.bakRemote = 0 ∧ mudTimeout now p.bakSendTime st then
    (c, m, { p with bakSendTime := now, sendTime := now }, some CtrlKind.bakx)
  else if p.sendTime = 0 then
    (c, m, { p with sendTime := now }, some CtrlKind.ping)
  else (c, m, p, none)

/-- The control message `mud_send_ctrl` chooses for one path, written from
the specification's priority list: on an active path keyx (crypto send
timeout and the 60-minute receive timeout both elapsed), else mtux (remote
MTU unknown, MTU send timeout elapsed), else bakx (locally backup, peer
not yet told, bakx send timeout elapsed), else ping (never sent on); on a
non-active path only keyx, and only on bad-key with the crypto send
timeout elapsed. -/
def ctrlPriorityChoice (c : CryptoRing) (m : MtuState) (st : Nat) (p : Path)
    (now : Nat) : Option CtrlKind :=
  if p.active then
    if mudTimeout now c.sendTime st ∧ mudTimeout now c.recvTime MUD_KEYX_TIMEOUT then
      some CtrlKind.keyx
    else if m.remote = 0 ∧ mudTimeout now m.sendTime st then some CtrlKind.mtux
    else if p.bakLocal = true ∧ p.bakRemote = 0 ∧ mudTimeout now p.bakSendTime st then
      some CtrlKind.bakx
    else if p.sendTime = 0 then some CtrlKind.ping
    else none
  else if c.badKey = true ∧ mudTimeout now c.sendTime st then some CtrlKind.keyx
  else none

/-- The `mud_send_ctrl` loop: thread the crypto and MTU state through the
path list; `clk j` is the clock value `mud_now` reads when the path at
position `j` is processed.  Emissions are `(position, kind)` pairs. -/
def sendCtrlFold (st : Nat) (clk : Nat → Nat) :
    CryptoRing → MtuState → Nat → List Path →
      CryptoRing × MtuState × List Path × List (Nat × CtrlKind)
  | c, m, _, [] => (c, m, [], [])
  | c, m, i, p :: ps =>
    let s := ctrlStep c m st p (clk i)
    let r := sendCtrlFold st clk s.1 s.2.1 (i + 1) ps
    (r.1, r.2.1, s.2.2.1 :: r.2.2.1,
      (match s.2.2.2 with | some k => [(i, k)] | none => []) ++ r.2.2.2)

/-- `mud_send_ctrl`. -/
def mudSendCtrl (mud : Mud) (clk : Nat → Nat) : Mud × List (Nat × CtrlKind) :=
  let r := sendCtrlFold mud.sendTimeout clk mud.crypto mud.mtu 0 mud.paths
  ({ mud with crypto := r.1, mtu := r.2.1, paths := r.2.2.1 }, r.2.2.2)

/-- The virtual deadline `mud_send` computes for a non-backup path
(`int64_t limit` after the `if (limit > elapsed)` update), with the
C `uint64_t` wrap-arounds and the final `int64_t` reinterpretation. -/
def limitOf (now : Nat) (p : Path) : Int :=
  let elapsed := sub64 now p.sendTime
  if mod64 p.limit > elapsed then
    toInt64 (mod64 p.limit + (mod64 p.rtt / 2 + (2 ^ 64 - elapsed)) % 2 ^ 64)
  else toInt64 (mod64 p.rtt / 2)

/-- The selection loop of `mud_send`: walk the paths with position `i`,
skip backup paths, transmit immediately on timed-out paths, otherwise
track the path with minimal deadline.  Returns the updated paths, the
immediate transmissions `(position, path-before-send)`, the running
minimum, and the tracked minimal path. -/
def sendLoop (now st : Nat) :
    Nat → Int → Option (Nat × Path) → List Path →
      List Path × List (Nat × Path) × Int × Option (Nat × Path)
  | _, lm, pm, [] => ([], [], lm, pm)
  | i, lm, pm, p :: ps =>
    if p.bakLocal = true then
      let r := sendLoop now st (i + 1) lm pm ps
      (p :: r.1, r.2)
    else
      let lim := limitOf now p
      if mudTimeout now p.recvTime st then
        let r := sendLoop now st (i + 1) lm pm ps
        ({ p with sendTime := now, limit := toUInt64 lim } :: r.1,
          (i, p) :: r.2.1, r.2.2)
      else if lm > lim then
        let r := sendLoop now st (i + 1) lim (some (i, p)) ps
        (p :: r.1, r.2)
      else
        let r := sendLoop now st (i + 1) lm pm ps
        (p :: r.1, r.2)

/-- The fallback scan of `mud_send`: the first backup path, with its
position. -/
def firstBak : Nat → List Path → Option (Nat × Path)
  | _, [] => none
  | i, p :: ps => if p.bakLocal = true then some (i, p) else firstBak (i + 1) ps

/-- Replace the path at a position by an updated copy. -/
def modifyAt : List Path → Nat → (Path → Path) → List Path
  | [], _, _ => []
  | p :: ps, 0, f => f p :: ps
  | p :: ps, Nat.succ j, f => p :: modifyAt ps j f

/-- The data portion of `mud_send` (after the control tick): size checks,
encryption, the selection loop, and the final transmission with the
`limit` update.  Data transmissions are `(position, path-before-send)`
pairs; `sendmsg` is modelled as succeeding with the full frame length. -/
def mudSendData (P : Prims) (mud : Mud) (now : Nat) (data : List Nat) :
    Int × Option Errno × Mud × List (Nat × Path) :=
  if data.length = 0 then (0, none, mud, [])
  else if data.length > toUInt64 (mudGetMtu mud) then
    (-1, some Errno.emsgsize, mud, [])
  else
    match mudEncrypt P mud.crypto now 2048 data with
    | none => (-1, some Errno.einval, mud, [])
    | some pkt =>
      let r := sendLoop now mud.sendTimeout 0 INT64MAX none mud.paths
      match r.2.2.2 with
      | some jp =>
        let upd := fun (q : Path) => { q with sendTime := now, limit := toUInt64 r.2.2.1 }
        (Int.ofNat pkt.length, none,
          { mud with paths := modifyAt r.1 jp.1 upd }, r.2.1 ++ [jp])
      | none =>
        match firstBak 0 r.1 with
        | some jp =>
          let upd := fun (q : Path) => { q with sendTime := now, limit := toUInt64 r.2.2.1 }
          (Int.ofNat pkt.length, none,
            { mud with paths := modifyAt r.1 jp.1 upd }, r.2.1 ++ [jp])
        | none => (0, none, { mud with paths := r.1 }, r.2.1)

/-- `mud_send`: the control tick runs first (with its own clock reads),
then the data frame is encrypted with nonce `now` and dispatched.  The
result carries the control emissions and the data emissions separately. -/
def mudSend (P : Prims) (mud : Mud) (clk : Nat → Nat) (now : Nat) (data : List Nat) :
    Int × Option Errno × Mud × List (Nat × CtrlKind) × List (Nat × Path) :=
  let s := mudSendCtrl mud clk
  let r := mudSendData P s.1 now data
  (r.1, r.2.1, r.2.2.1, s.2, r.2.2.2)

/-- Concrete primitives for evaluation: a toy AEAD whose tag is 16 zero
bytes (so decryption always succeeds after stripping the tag), plus total
stand-ins for the X25519 operations and the keyed hash. -/
def aeadToy : Prims :=
  { enc := fun _ _ _ _ m => m ++ List.replicate 16 0,
    dec := fun _ _ _ _ ct => if ct.length < 16 then none
                             else some (ct.take (ct.length - 16)),
    scalarmultBase := fun s => (s ++ List.replicate 32 4).take 32,
    scalarmult := fun a b => some ((a ++ b ++ List.replicate 32 5).take 32),
    hash := fun salt m => salt ++ m }

/-- A variant of the toy primitives whose AEAD accepts exactly the key
`[9]` and returns the raw ciphertext as plaintext, for exercising slot
failures. -/
def keyedToy : Prims :=
  { aeadToy with dec := fun _ k _ _ ct => if k = [9] then some ct else none }

def slotOne : CryptoSlot := { encryptKey := [1], decryptKey := [1], aes := false }

def slotNine : CryptoSlot := { encryptKey := [9], decryptKey := [9], aes := false }

/-- A ring in the `mud_set_key` configuration, for concrete witnesses. -/
def ringOne : CryptoRing :=
  { recvTime := 0, sendTime := 0, secret := [9], publicSend := List.replicate 33 7,
    publicRecv := List.replicate 33 0, priv := slotOne, last := slotOne,
    next := slotOne, current := slotOne, useNext := false, aes := false,
    badKey := false }

/-- A ring whose `next` slot differs from the other three. -/
def ringTwo : CryptoRing := { ringOne with next := slotNine }

/-- Iterated reception on one path: the k-th packet (0-based) arrives at
local time `t0 + k*d` carrying peer send-time `s0 + k*d`. -/
def recvIter (p : Path) (t0 s0 d : Nat) : Nat → Path
  | 0 => p
  | Nat.succ k => (mudRecvPathUpdate (recvIter p t0 s0 d k) (t0 + k * d) (s0 + k * d)).1

/-- The shared X25519 secret the toy primitives derive in the C3 scenario. -/
def secC3 : List Nat :=
  (aeadToy.scalarmult ringOne.secret ((List.replicate 33 2).take 32)).getD []

/-- A never-received non-backup path plus a backup path: the C5 scenario. -/
def mudC5 : Mud :=
  { sendTimeout := 1000, timeTolerance := MUD_TIME_TOLERANCE,
    paths := [{ Path.zero with localAddr := 1, remoteAddr := 2 },
              { Path.zero with localAddr := 1, remoteAddr := 3, bakLocal := true }],
    crypto := ringOne, mtu := { sendTime := 0, remote := 0, localMtu := 1400 } }

/-- A single inactive path and an unknown peer MTU: the C7 scenario. -/
def mudC7 : Mud :=
  { sendTimeout := MUD_SEND_TIMEOUT, timeTolerance := MUD_TIME_TOLERANCE,
    paths := [{ Path.zero with localAddr := 1, remoteAddr := 2 }],
    crypto := ringOne, mtu := { sendTime := 0, remote := 0, localMtu := 1400 } }

/-- An mtux control packet advertising MTU `2^32 - 1`, which the C `int`
cast stores as `-1`. -/
def mtuxC7 : List Nat :=
  List.replicate 6 0 ++ write48 1000 ++ write48 (2 ^ 32 - 1) ++ List.replicate 16 0

/-- The engine after receiving `mtuxC7`: its `mtu.remote` is `-1`. -/
def mudC7after : Mud := (mudRecv aeadToy mudC7 1500 mtuxC7 (some 1) 2 100 [3]).2.2.1

/-- A bakx control packet with payload byte 1. -/
def bakxC9 : List Nat :=
  List.replicate 6 0 ++ write48 1000 ++ [1] ++ List.replicate 16 0

/-- A ring with `bad_key` set, for the C6 witness. -/
def ringBad : CryptoRing := { ringOne with badKey := true }

def mtuW : MtuState := { sendTime := 0, remote := 0, localMtu := 1400 }

/-- A one-path engine for control-packet witnesses. -/
def mudW9 : Mud :=
  { sendTimeout := MUD_SEND_TIMEOUT, timeTolerance := MUD_TIME_TOLERANCE,
    paths := [newPath 1 2], crypto := ringOne,
    mtu := { sendTime := 0, remote := 0, localMtu := 1400 } }

/-- A freshly-received non-backup path, for the C5 witness. -/
def pW5 : Path := { Path.zero with localAddr := 1, remoteAddr := 2, recvTime := 50 }

def mudW5 : Mud :=
  { sendTimeout := 1000, timeTolerance := MUD_TIME_TOLERANCE, paths := [pW5],
    crypto := ringOne, mtu := { sendTime := 0, remote := 0, localMtu := 1400 } }

theorem write48_length (v : Nat) : (write48 v).length = 6 := rfl

theorem take6_append (v : Nat) (l : List Nat) : (write48 v ++ l).take 6 = write48 v := rfl

theorem drop6_append (v : Nat) (l : List Nat) : (write48 v ++ l).drop 6 = l := rfl

theorem sub64_of_le (a b : Nat) (hb : b ≤ a) (ha : a < 2 ^ 64) : sub64 a b = a - b := by
  unfold sub64
  have hb64 : b < 2 ^ 64 := lt_of_le_of_lt hb ha
  rw [Nat.mod_eq_of_lt ha, Nat.mod_eq_of_lt hb64]
  have h1 : a + (2 ^ 64 - b) = (a - b) + 2 ^ 64 := by omega
  rw [h1, Nat.add_mod_right, Nat.mod_eq_of_lt (by omega)]

theorem aeadToy_correct : AEADCorrect aeadToy := by
  intro aes k n a m
  constructor
  · simp [aeadToy]
  · simp [aeadToy]

/-- C1: with the ring in the one-key configuration established by
`mud_set_key` (the spec's "round-trip under one key") and a correct AEAD,
a frame produced by `mud_encrypt` with a nonzero 48-bit nonce from a
plaintext that fits the buffers, fed back into `mud_decrypt` on the same
engine state, yields exactly the plaintext (the `current` slot, the first
one attempted, succeeds) and leaves the ring unchanged. -/
theorem claimC1 (P : Prims) (c : CryptoRing) (fresh : List Nat)
    (hA : AEADCorrect P) (hk : oneKeyRing c) (nonce : Nat) (src : List Nat)
    (dstE bufD : Nat) (hn : nonce ≠ 0) (h48 : nonce < 2 ^ 48)
    (hs : src.length + 22 ≤ dstE) (hd : dstE ≤ 2048) (hb : src.length ≤ bufD) :
    (mudEncrypt P c nonce dstE src).isSome = true ∧
      mudDecrypt P fresh c bufD ((mudEncrypt P c nonce dstE src).getD []) =
        (Int.ofNat src.length, some src, c) := by
  obtain ⟨hc, hx, hl, he⟩ := hk
  have hslot : (if c.useNext then c.next else c.current) = c.priv := by
    cases hcase : c.useNext <;> simp [hc, hx]
  have henc : mudEncrypt P c nonce dstE src =
      some (write48 nonce ++ P.enc c.priv.aes c.priv.encryptKey
        (write48 nonce ++ List.replicate 10 0) (write48 nonce) src) := by
    unfold mudEncrypt
    rw [if_neg hn, if_neg (by omega)]
    rw [hslot]
  refine ⟨by rw [henc]; rfl, ?_⟩
  rw [henc, Option.getD_some]
  have hctlen : (P.enc c.priv.aes c.priv.encryptKey
      (write48 nonce ++ List.replicate 10 0) (write48 nonce) src).length =
      src.length + 16 := (hA _ _ _ _ _).2
  have hflen : (write48 nonce ++ P.enc c.priv.aes c.priv.encryptKey
      (write48 nonce ++ List.replicate 10 0) (write48 nonce) src).length =
      src.length + 22 := by
    rw [List.length_append, write48_length, hctlen]; omega
  unfold mudDecrypt
  rw [hflen, sub64_of_le _ _ (by omega) (by omega)]
  have hsize : src.length + 22 - 22 = src.length := by omega
  rw [hsize, if_neg (by omega)]
  rw [take6_append, drop6_append, hc, he]
  have hr := (hA c.priv.aes c.priv.encryptKey
    (write48 nonce ++ List.replicate 10 0) (write48 nonce) src).1
  simp only [hr]

/-- Witness for C1 at a concrete plaintext and nonce. -/
theorem claimC1_witness :
    (mudEncrypt aeadToy ringOne 5 2048 [10, 11, 12]).isSome = true ∧
      mudDecrypt aeadToy [3] ringOne 100
          ((mudEncrypt aeadToy ringOne 5 2048 [10, 11, 12]).getD []) =
        (Int.ofNat 3, some [10, 11, 12], ringOne) :=
  claimC1 aeadToy ringOne [3] aeadToy_correct
    ⟨rfl, rfl, rfl, rfl⟩ 5 [10, 11, 12] 2048 100
    (by decide) (by decide) (by decide) (by decide) (by decide)

/-- Reduction of `mud_recv` to the per-path dispatch for an in-tolerance
data packet received on a known path. -/
theorem mudRecv_data_reduce (P : Prims) (mud : Mud) (now : Nat) (packet : List Nat)
    (la ra buf : Nat) (fresh : List Nat) (ip : Nat × Path)
    (hlen : 22 < packet.length) (hne : read48 packet ≠ 0)
    (htol : absDiff now (read48 packet) < mud.timeTolerance)
    (hfind : findPath mud.paths la ra = some ip) :
    mudRecv P mud now packet (some la) ra buf fresh =
      mudRecvDataPath P mud ip.1 ip.2 now (sendTimeOf packet) packet buf fresh := by
  unfold mudRecv
  rw [if_neg (by omega), if_neg (by simp [hne]),
      if_neg (by simp [sendTimeOf, hne]; omega), if_neg (by simp [hne])]
  simp [hfind, hne]

/-- The data branch of the per-path dispatch when every slot failed:
return 0, deliver nothing, set `bad_key`. -/
theorem mudRecvPath_badkey (P : Prims) (mud : Mud) (i : Nat) (p : Path)
    (now st : Nat) (packet : List Nat) (buf : Nat) (fresh : List Nat)
    (hdec : mudDecrypt P fresh mud.crypto buf packet = (-1, none, mud.crypto)) :
    mudRecvDataPath P mud i p now st packet buf fresh =
      (0, none,
        { mud with crypto := { mud.crypto with badKey := true },
                   paths := mud.paths.set i (mudRecvPathUpdate p now st).1 },
        if (mudRecvPathUpdate p now st).2 = true then [CtrlKind.pong] else []) := by
  unfold mudRecvDataPath
  simp only [hdec]
  rfl

theorem mudDecrypt_sizebig (P : Prims) (fresh : List Nat) (c : CryptoRing)
    (buf : Nat) (src : List Nat) (hb : buf < sub64 src.length 22) :
    mudDecrypt P fresh c buf src = (0, none, c) := by
  unfold mudDecrypt
  rw [if_pos (by omega)]

theorem mudDecrypt_cur (P : Prims) (fresh : List Nat) (c : CryptoRing)
    (buf : Nat) (src m : List Nat) (hb : sub64 src.length 22 ≤ buf)
    (h1 : P.dec c.current.aes c.current.decryptKey
      (src.take 6 ++ List.replicate 10 0) (src.take 6) (src.drop 6) = some m) :
    mudDecrypt P fresh c buf src = (Int.ofNat (sub64 src.length 22), some m, c) := by
  unfold mudDecrypt
  rw [if_neg (by omega)]
  simp only [h1]

theorem mudDecrypt_next (P : Prims) (fresh : List Nat) (c : CryptoRing)
    (buf : Nat) (src m : List Nat) (hb : sub64 src.length 22 ≤ buf)
    (h1 : P.dec c.current.aes c.current.decryptKey
      (src.take 6 ++ List.replicate 10 0) (src.take 6) (src.drop 6) = none)
    (h2 : P.dec c.next.aes c.next.decryptKey
      (src.take 6 ++ List.replicate 10 0) (src.take 6) (src.drop 6) = some m) :
    mudDecrypt P fresh c buf src =
      (Int.ofNat (sub64 src.length 22), some m, mudPromote P c fresh) := by
  unfold mudDecrypt
  rw [if_neg (by omega)]
  simp only [h1, h2]

theorem mudDecrypt_last (P : Prims) (fresh : List Nat) (c : CryptoRing)
    (buf : Nat) (src m : List Nat) (hb : sub64 src.length 22 ≤ buf)
    (h1 : P.dec c.current.aes c.current.decryptKey
      (src.take 6 ++ List.replicate 10 0) (src.take 6) (src.drop 6) = none)
    (h2 : P.dec c.next.aes c.next.decryptKey
      (src.take 6 ++ List.replicate 10 0) (src.take 6) (src.drop 6) = none)
    (h3 : P.dec c.last.aes c.last.decryptKey
      (src.take 6 ++ List.replicate 10 0) (src.take 6) (src.drop 6) = some m) :
    mudDecrypt P fresh c buf src = (Int.ofNat (sub64 src.length 22), some m, c) := by
  unfold mudDecrypt
  rw [if_neg (by omega)]
  simp only [h1, h2, h3]

theorem mudDecrypt_priv (P : Prims) (fresh : List Nat) (c : CryptoRing)
    (buf : Nat) (src m : List Nat) (hb : sub64 src.length 22 ≤ buf)
    (h1 : P.dec c.current.aes c.current.decryptKey
      (src.take 6 ++ List.replicate 10 0) (src.take 6) (src.drop 6) = none)
    (h2 : P.dec c.next.aes c.next.decryptKey
      (src.take 6 ++ List.replicate 10 0) (src.take 6) (src.drop 6) = none)
    (h3 : P.dec c.last.aes c.last.decryptKey
      (src.take 6 ++ List.replicate 10 0) (src.take 6) (src.drop 6) = none)
    (h4 : P.dec c.priv.aes c.priv.decryptKey
      (src.take 6 ++ List.replicate 10 0) (src.take 6) (src.drop 6) = some m) :
    mudDecrypt P fresh c buf src = (Int.ofNat (sub64 src.length 22), some m, c) := by
  unfold mudDecrypt
  rw [if_neg (by omega)]
  simp only [h1, h2, h3, h4]

theorem mudDecrypt_fail (P : Prims) (fresh : List Nat) (c : CryptoRing)
    (buf : Nat) (src : List Nat) (hb : sub64 src.length 22 ≤ buf)
    (h1 : P.dec c.current.aes c.current.decryptKey
      (src.take 6 ++ List.replicate 10 0) (src.take 6) (src.drop 6) = none)
    (h2 : P.dec c.next.aes c.next.decryptKey
      (src.take 6 ++ List.replicate 10 0) (src.take 6) (src.drop 6) = none)
    (h3 : P.dec c.last.aes c.last.decryptKey
      (src.take 6 ++ List.replicate 10 0) (src.take 6) (src.drop 6) = none)
    (h4 : P.dec c.priv.aes c.priv.decryptKey
      (src.take 6 ++ List.replicate 10 0) (src.take 6) (src.drop 6) = none) :
    mudDecrypt P fresh c buf src = (-1, none, c) := by
  unfold mudDecrypt
  rw [if_neg (by omega)]
  simp only [h1, h2, h3, h4]

/-- C2: the data-path decrypt tries the slots in order.  (a) When
`current` decrypts, its plaintext is returned and the ring is unchanged.
(b) When `current` fails and `next` succeeds, the engine promotes: `last`
becomes the previous `current`, `current` the previous `next`, the local
ephemeral keypair is re-initialized (secret from fresh randomness, a new
`public.send` carrying the AES flag byte, `public.recv` zeroed) and
`use_next` is cleared.  (c) When `current` and `next` fail and `last`
succeeds, its plaintext is returned with the ring unchanged.  (d) When all
four slots fail on a data packet, `mud_recv` returns 0, delivers nothing,
and records `bad_key = true`. -/
theorem claimC2 :
    (∀ (P : Prims) (fresh : List Nat) (c : CryptoRing) (buf : Nat)
        (src m : List Nat), sub64 src.length 22 ≤ buf →
      P.dec c.current.aes c.current.decryptKey
        (src.take 6 ++ List.replicate 10 0) (src.take 6) (src.drop 6) = some m →
      mudDecrypt P fresh c buf src = (Int.ofNat (sub64 src.length 22), some m, c)) ∧
    (∀ (P : Prims) (fresh : List Nat) (c : CryptoRing) (buf : Nat)
        (src m : List Nat), sub64 src.length 22 ≤ buf →
      P.dec c.current.aes c.current.decryptKey
        (src.take 6 ++ List.replicate 10 0) (src.take 6) (src.drop 6) = none →
      P.dec c.next.aes c.next.decryptKey
        (src.take 6 ++ List.replicate 10 0) (src.take 6) (src.drop 6) = some m →
      mudDecrypt P fresh c buf src =
          (Int.ofNat (sub64 src.length 22), some m, mudPromote P c fresh) ∧
        (mudPromote P c fresh).last = c.current ∧
        (mudPromote P c fresh).current = c.next ∧
        (mudPromote P c fresh).secret = fresh ∧
        (mudPromote P c fresh).publicSend =
          P.scalarmultBase fresh ++ [if c.aes then 1 else 0] ∧
        (mudPromote P c fresh).publicRecv = List.replicate 33 0 ∧
        (mudPromote P c fresh).useNext = false) ∧
    (∀ (P : Prims) (fresh : List Nat) (c : CryptoRing) (buf : Nat)
        (src m : List Nat), sub64 src.length 22 ≤ buf →
      P.dec c.current.aes c.current.decryptKey
        (src.take 6 ++ List.replicate 10 0) (src.take 6) (src.drop 6) = none →
      P.dec c.next.aes c.next.decryptKey
        (src.take 6 ++ List.replicate 10 0) (src.take 6) (src.drop 6) = none →
      P.dec c.last.aes c.last.decryptKey
        (src.take 6 ++ List.replicate 10 0) (src.take 6) (src.drop 6) = some m →
      mudDecrypt P fresh c buf src = (Int.ofNat (sub64 src.length 22), some m, c)) ∧
    (∀ (P : Prims) (mud : Mud) (now : Nat) (packet : List Nat) (la ra buf : Nat)
        (fresh : List Nat) (ip : Nat × Path), 22 < packet.length →
      read48 packet ≠ 0 →
      absDiff now (read48 packet) < mud.timeTolerance →
      findPath mud.paths la ra = some ip →
      sub64 packet.length 22 ≤ buf →
      P.dec mud.crypto.current.aes mud.crypto.current.decryptKey
        (packet.take 6 ++ List.replicate 10 0) (packet.take 6) (packet.drop 6) = none →
      P.dec mud.crypto.next.aes mud.crypto.next.decryptKey
        (packet.take 6 ++ List.replicate 10 0) (packet.take 6) (packet.drop 6) = none →
      P.dec mud.crypto.last.aes mud.crypto.last.decryptKey
        (packet.take 6 ++ List.replicate 10 0) (packet.take 6) (packet.drop 6) = none →
      P.dec mud.crypto.priv.aes mud.crypto.priv.decryptKey
        (packet.take 6 ++ List.replicate 10 0) (packet.take 6) (packet.drop 6) = none →
      (mudRecv P mud now packet (some la) ra buf fresh).1 = 0 ∧
        (mudRecv P mud now packet (some la) ra buf fresh).2.1 = none ∧
        (mudRecv P mud now packet (some la) ra buf fresh).2.2.1.crypto =
          { mud.crypto with badKey := true }) := by
  refine ⟨?_, ?_, ?_, ?_⟩
  · intro P fresh c buf src m hb h1
    unfold mudDecrypt
    rw [if_neg (by omega)]
    simp only [h1]
  · intro P fresh c buf src m hb h1 h2
    refine ⟨?_, rfl, rfl, rfl, rfl, rfl, rfl⟩
    unfold mudDecrypt
    rw [if_neg (by omega)]
    simp only [h1, h2]
  · intro P fresh c buf src m hb h1 h2 h3
    unfold mudDecrypt
    rw [if_neg (by omega)]
    simp only [h1, h2, h3]
  · intro P mud now packet la ra buf fresh ip hlen hne htol hfind hb h1 h2 h3 h4
    have hdec := mudDecrypt_fail P fresh mud.crypto buf packet hb h1 h2 h3 h4
    rw [mudRecv_data_reduce P mud now packet la ra buf fresh ip hlen hne htol hfind,
        mudRecvPath_badkey P mud ip.1 ip.2 now (sendTimeOf packet) packet buf fresh hdec]
    exact ⟨rfl, rfl, rfl⟩

/-- Witness for C2 at the promotion scenario (b): `current` holds key
`[1]`, `next` key `[9]`, and the toy AEAD accepts only key `[9]`. -/
theorem claimC2_witness :
    mudDecrypt keyedToy [3] ringTwo 50 (List.replicate 28 1) =
      (Int.ofNat 6, some (List.replicate 22 1), mudPromote keyedToy ringTwo [3]) ∧
      (mudPromote keyedToy ringTwo [3]).last = ringTwo.current ∧
      (mudPromote keyedToy ringTwo [3]).current = ringTwo.next ∧
      (mudPromote keyedToy ringTwo [3]).secret = [3] ∧
      (mudPromote keyedToy ringTwo [3]).publicSend =
        keyedToy.scalarmultBase [3] ++ [if ringTwo.aes then 1 else 0] ∧
      (mudPromote keyedToy ringTwo [3]).publicRecv = List.replicate 33 0 ∧
      (mudPromote keyedToy ringTwo [3]).useNext = false :=
  claimC2.2.1 keyedToy [3] ringTwo 50 (List.replicate 28 1) (List.replicate 22 1)
    (by decide) (by decide) (by decide)

/-- C3 counterexample: a keyx whose `peer_recv` field (all-3 bytes)
differs from the local `public.send` (all-7 bytes).  The derived
`next.encrypt_key` is not the hash of `secret ‖ peer_recv ‖ peer_send` as
received (the claim), because `mud_recv_keyx` overwrites the received
`peer_recv` with the local `public.send` before hashing; it is the hash of
`secret ‖ public.send ‖ peer_send`. -/
theorem claimC3_counter :
    ((List.replicate 33 3 : List Nat) ≠ ringOne.publicSend) ∧
      aeadToy.scalarmult ringOne.secret ((List.replicate 33 2).take 32) = some secC3 ∧
      (mudRecvKeyx aeadToy ringOne 77
          (List.replicate 33 2 ++ List.replicate 33 3)).1.next.encryptKey ≠
        aeadToy.hash ringOne.priv.encryptKey
          (secC3 ++ List.replicate 33 3 ++ List.replicate 33 2) ∧
      (mudRecvKeyx aeadToy ringOne 77
          (List.replicate 33 2 ++ List.replicate 33 3)).1.next.encryptKey =
        aeadToy.hash ringOne.priv.encryptKey
          (secC3 ++ ringOne.publicSend ++ List.replicate 33 2) := by
  refine ⟨by decide, by decide, by decide, by decide⟩

/-- C3 (amended): on a keyx with payload `peer_send(33) ‖ peer_recv(33)`,
when the scalar multiplication succeeds, `next.encrypt_key` is the keyed
generic hash, salted by the private key, of the shared secret concatenated
with the pair (local `public.send`, `peer_send`) — the received `peer_recv`
having been replaced by the local `public.send` — and `next.decrypt_key`
uses the opposite orientation. -/
theorem claimC3 (P : Prims) (c : CryptoRing) (now : Nat) (data sec : List Nat)
    (hs : P.scalarmult c.secret ((data.take 33).take 32) = some sec) :
    (mudRecvKeyx P c now data).1.next.encryptKey =
        P.hash c.priv.encryptKey (sec ++ c.publicSend ++ data.take 33) ∧
      (mudRecvKeyx P c now data).1.next.decryptKey =
        P.hash c.priv.encryptKey (sec ++ data.take 33 ++ c.publicSend) := by
  unfold mudRecvKeyx
  simp [hs]

/-- Witness for C3 at the counterexample scenario's inputs. -/
theorem claimC3_witness :
    (mudRecvKeyx aeadToy ringOne 77
        (List.replicate 33 2 ++ List.replicate 33 3)).1.next.encryptKey =
      aeadToy.hash ringOne.priv.encryptKey
        (secC3 ++ ringOne.publicSend ++
          (List.replicate 33 2 ++ List.replicate 33 3).take 33) :=
  (claimC3 aeadToy ringOne 77 (List.replicate 33 2 ++ List.replicate 33 3) secC3
    (by decide)).1

/-- C4: an incoming datagram (control or data) whose parsed send-time is
at least `time_tolerance` away from the receiver's clock makes `mud_recv`
return 0 with the whole engine state unchanged, nothing delivered, and
nothing emitted. -/
theorem claimC4 (P : Prims) (mud : Mud) (now : Nat) (packet : List Nat)
    (localAddr : Option Nat) (ra buf : Nat) (fresh : List Nat)
    (htol : mud.timeTolerance ≤ absDiff now (sendTimeOf packet)) :
    mudRecv P mud now packet localAddr ra buf fresh = (0, none, mud, []) := by
  unfold mudRecv
  by_cases h1 : packet.length ≤ 22
  · rw [if_pos h1]
  · rw [if_neg h1]
    by_cases h2 : read48 packet = 0 ∧ packet.length < 28
    · rw [if_pos h2]
    · rw [if_neg h2, if_pos htol]

/-- Witness for C4: a data packet re-injected 11 minutes late. -/
theorem claimC4_witness :
    mudRecv aeadToy
      { sendTimeout := MUD_SEND_TIMEOUT, timeTolerance := MUD_TIME_TOLERANCE,
        paths := [newPath 1 2], crypto := ringOne,
        mtu := { sendTime := 0, remote := 0, localMtu := 1400 } }
      (1000 + 11 * MUD_ONE_MIN) (write48 1000 ++ List.replicate 23 4)
      (some 1) 2 100 [3] =
      (0, none,
        { sendTimeout := MUD_SEND_TIMEOUT, timeTolerance := MUD_TIME_TOLERANCE,
          paths := [newPath 1 2], crypto := ringOne,
          mtu := { sendTime := 0, remote := 0, localMtu := 1400 } }, []) :=
  claimC4 aeadToy _ _ _ _ _ _ _ (by decide)

/-- The fields of the per-path reception update relevant to the timing
samples, independent of the pong decision. -/
theorem pathUpdate_core (p : Path) (now st : Nat) :
    (mudRecvPathUpdate p now st).1.recvTime = now ∧
      (mudRecvPathUpdate p now st).1.rst = st ∧
      (mudRecvPathUpdate p now st).1.rdt =
        (if p.rdt ≠ 0 then (sub64 now p.recvTime + 7 * p.rdt) % 2 ^ 64 / 8
         else if p.recvTime ≠ 0 then sub64 now p.recvTime else p.rdt) := by
  unfold mudRecvPathUpdate
  split_ifs with hf hs hp hp hp <;> exact ⟨rfl, rfl, rfl⟩

theorem recvIter_steady (p : Path) (t0 s0 d n : Nat) (h0 : p.rdt = 0)
    (h1 : p.recvTime = 0) (ht : 0 < t0) (hn : 8 ≤ n)
    (hb : t0 + n * d < 2 ^ 64) :
    ∀ k, 2 ≤ k → k ≤ n → (recvIter p t0 s0 d k).rdt = d ∧
      (recvIter p t0 s0 d k).recvTime = t0 + (k - 1) * d := by
  have hd8 : 8 * d < 2 ^ 64 := by
    have : 8 * d ≤ n * d := Nat.mul_le_mul_right d hn
    omega
  have hstep : ∀ k, t0 + k * d < 2 ^ 64 → k ≤ n → True := fun _ _ _ => trivial
  intro k hk2
  induction k, hk2 using Nat.le_induction with
  | base =>
    intro hkn
    have e1 : recvIter p t0 s0 d 1 = (mudRecvPathUpdate p (t0 + 0 * d) (s0 + 0 * d)).1 := rfl
    have c1 := pathUpdate_core p (t0 + 0 * d) (s0 + 0 * d)
    have r1 : (recvIter p t0 s0 d 1).rdt = 0 := by
      rw [e1, c1.2.2, if_neg (by simp [h0]), if_neg (by simp [h1])]
      exact h0
    have v1 : (recvIter p t0 s0 d 1).recvTime = t0 := by
      rw [e1, c1.1]; omega
    have e2 : recvIter p t0 s0 d 2 =
        (mudRecvPathUpdate (recvIter p t0 s0 d 1) (t0 + 1 * d) (s0 + 1 * d)).1 := rfl
    have c2 := pathUpdate_core (recvIter p t0 s0 d 1) (t0 + 1 * d) (s0 + 1 * d)
    have hlt : t0 + 1 * d < 2 ^ 64 := by
      have : 1 * d ≤ n * d := Nat.mul_le_mul_right d (by omega)
      omega
    constructor
    · rw [e2, c2.2.2, if_neg (by simp [r1]), if_pos (by simp [v1]; omega), v1,
          sub64_of_le _ _ (by omega) hlt]
      omega
    · rw [e2, c2.1]
  | succ k hk ih =>
    intro hkn
    have hmono : (k - 1) * d ≤ k * d := Nat.mul_le_mul_right d (by omega)
    have hkd : t0 + k * d < 2 ^ 64 := by
      have : k * d ≤ n * d := Nat.mul_le_mul_right d (by omega)
      omega
    obtain ⟨ir, iv⟩ := ih (by omega)
    have ek : recvIter p t0 s0 d (k + 1) =
        (mudRecvPathUpdate (recvIter p t0 s0 d k) (t0 + k * d) (s0 + k * d)).1 := rfl
    have ck := pathUpdate_core (recvIter p t0 s0 d k) (t0 + k * d) (s0 + k * d)
    have hdel : t0 + k * d - (t0 + (k - 1) * d) = d := by
      have hmul : (k - 1) * d + d = k * d := by
        have hk1 : k - 1 + 1 = k := by omega
        calc (k - 1) * d + d = (k - 1 + 1) * d := by ring
          _ = k * d := by rw [hk1]
      omega
    have hrec : (recvIter p t0 s0 d (k + 1)).recvTime = t0 + (k + 1 - 1) * d := by
      rw [ek, ck.1, Nat.add_sub_cancel]
    refine ⟨?_, hrec⟩
    by_cases hz : (recvIter p t0 s0 d k).rdt ≠ 0
    · rw [ek, ck.2.2, if_pos hz, iv, ir, sub64_of_le _ _ (by omega) hkd, hdel]
      have h8 : d + 7 * d = 8 * d := by ring
      rw [h8, Nat.mod_eq_of_lt hd8]
      omega
    · push_neg at hz
      have hd0 : d = 0 := by rw [ir] at hz; exact hz
      rw [ek, ck.2.2, if_neg (by rw [ir, hd0]; simp),
          if_pos (by rw [iv]; omega), iv, sub64_of_le _ _ (by omega) hkd, hdel]

/-- C8: receiving with constant inter-arrival `d` (both in local arrival
times and in peer send-times), starting from a fresh path, after `n ≥ 20`
samples the path's `rdt` equals `d` exactly — in particular it is within
1% of `d`.  Each update applies the source's integer EWMA
`rdt := ((now − recv_time) + 7·rdt) / 8`; the first usable sample
initializes `rdt` from the raw delta. -/
theorem claimC8 (p : Path) (t0 s0 d n : Nat) (h0 : p.rdt = 0)
    (h1 : p.recvTime = 0) (ht : 0 < t0) (hn : 20 ≤ n)
    (hb : t0 + n * d < 2 ^ 64) :
    (recvIter p t0 s0 d n).rdt = d ∧
      100 * absDiff (recvIter p t0 s0 d n).rdt d ≤ d := by
  have h := recvIter_steady p t0 s0 d n h0 h1 ht (by omega) hb n (by omega) le_rfl
  refine ⟨h.1, ?_⟩
  rw [h.1]
  simp [absDiff]

/-- Witness for C8: 25 packets with inter-arrival 10 starting at time
1000. -/
theorem claimC8_witness :
    (recvIter (newPath 1 2) 1000 2000 10 25).rdt = 10 ∧
      100 * absDiff (recvIter (newPath 1 2) 1000 2000 10 25).rdt 10 ≤ 10 :=
  claimC8 (newPath 1 2) 1000 2000 10 25 (by decide) (by decide) (by decide)
    (by decide) (by decide)

/-- Every control branch of the per-path dispatch returns 0 and delivers
no plaintext. -/
theorem mudRecvPath_ctrl_ret (P : Prims) (mud : Mud) (i : Nat) (p : Path)
    (now st : Nat) (packet : List Nat) :
    (mudRecvCtrlPath P mud i p now st packet).1 = 0 ∧
      (mudRecvCtrlPath P mud i p now st packet).2.1 = none := by
  unfold mudRecvCtrlPath
  by_cases h94 : packet.length = 94
  · rw [if_pos h94]; exact ⟨rfl, rfl⟩
  · rw [if_neg h94]
    by_cases h34 : packet.length = 34
    · rw [if_pos h34]; exact ⟨rfl, rfl⟩
    · rw [if_neg h34]
      by_cases h46 : packet.length = 46
      · rw [if_pos h46]; exact ⟨rfl, rfl⟩
      · rw [if_neg h46]
        by_cases h29 : packet.length = 29
        · rw [if_pos h29]; exact ⟨rfl, rfl⟩
        · rw [if_neg h29]; exact ⟨rfl, rfl⟩

/-- A positive `mud_decrypt` return value comes with a delivered
plaintext. -/
theorem mudDecrypt_pos (P : Prims) (fresh : List Nat) (c : CryptoRing)
    (buf : Nat) (src : List Nat) :
    0 < (mudDecrypt P fresh c buf src).1 →
      (mudDecrypt P fresh c buf src).2.1 ≠ none := by
  intro hpos
  by_cases hb : sub64 src.length 22 ≤ buf
  · cases h1 : P.dec c.current.aes c.current.decryptKey
        (src.take 6 ++ List.replicate 10 0) (src.take 6) (src.drop 6) with
    | some m => rw [mudDecrypt_cur P fresh c buf src m hb h1]; simp
    | none =>
      cases h2 : P.dec c.next.aes c.next.decryptKey
          (src.take 6 ++ List.replicate 10 0) (src.take 6) (src.drop 6) with
      | some m => rw [mudDecrypt_next P fresh c buf src m hb h1 h2]; simp
      | none =>
        cases h3 : P.dec c.last.aes c.last.decryptKey
            (src.take 6 ++ List.replicate 10 0) (src.take 6) (src.drop 6) with
        | some m => rw [mudDecrypt_last P fresh c buf src m hb h1 h2 h3]; simp
        | none =>
          cases h4 : P.dec c.priv.aes c.priv.decryptKey
              (src.take 6 ++ List.replicate 10 0) (src.take 6) (src.drop 6) with
          | some m => rw [mudDecrypt_priv P fresh c buf src m hb h1 h2 h3 h4]; simp
          | none =>
            rw [mudDecrypt_fail P fresh c buf src hb h1 h2 h3 h4] at hpos
            simp at hpos
  · rw [mudDecrypt_sizebig P fresh c buf src (by omega)] at hpos
    simp at hpos

/-- The data branch of the per-path dispatch, characterized through the
decrypt result. -/
theorem mudRecvDataPath_cases (P : Prims) (mud : Mud) (i : Nat) (p : Path)
    (now st : Nat) (packet : List Nat) (buf : Nat) (fresh : List Nat)
    (res : Int × Option (List Nat) × CryptoRing)
    (hdec : mudDecrypt P fresh mud.crypto buf packet = res) :
    mudRecvDataPath P mud i p now st packet buf fresh =
      if res.1 = -1 then
        (0, none,
          { mud with crypto := { res.2.2 with badKey := true },
                     paths := mud.paths.set i (mudRecvPathUpdate p now st).1 },
          if (mudRecvPathUpdate p now st).2 then [CtrlKind.pong] else [])
      else
        (res.1, res.2.1,
          { mud with crypto := res.2.2,
                     paths := mud.paths.set i (mudRecvPathUpdate p now st).1 },
          if (mudRecvPathUpdate p now st).2 then [CtrlKind.pong] else []) := by
  unfold mudRecvDataPath
  simp only [hdec]

/-- A positive return from the data branch of the per-path dispatch comes
with a delivered plaintext. -/
theorem mudRecvPath_data_pos (P : Prims) (mud : Mud) (i : Nat) (p : Path)
    (now st : Nat) (packet : List Nat) (buf : Nat) (fresh : List Nat) :
    0 < (mudRecvDataPath P mud i p now st packet buf fresh).1 →
      (mudRecvDataPath P mud i p now st packet buf fresh).2.1 ≠ none := by
  intro hlt
  obtain ⟨res, hres⟩ : ∃ r, mudDecrypt P fresh mud.crypto buf packet = r := ⟨_, rfl⟩
  rw [mudRecvDataPath_cases P mud i p now st packet buf fresh res hres] at hlt ⊢
  by_cases hm : res.1 = -1
  · rw [if_pos hm] at hlt
    simp at hlt
  · rw [if_neg hm] at hlt ⊢
    have hpos := mudDecrypt_pos P fresh mud.crypto buf packet
    rw [hres] at hpos
    simp at hlt ⊢
    exact hpos hlt

/-- C10: `mud_recv` on a control packet (six-zero marker) returns 0 and
writes nothing into the caller's buffer — with no authenticity or
tolerance hypotheses needed, since every control path returns 0; and a
positive return only arises from a data packet (nonzero 48-bit header) and
always carries plaintext. -/
theorem claimC10 (P : Prims) (mud : Mud) (now : Nat) (packet : List Nat)
    (localAddr : Option Nat) (ra buf : Nat) (fresh : List Nat) :
    (read48 packet = 0 →
      (mudRecv P mud now packet localAddr ra buf fresh).1 = 0 ∧
        (mudRecv P mud now packet localAddr ra buf fresh).2.1 = none) ∧
    (0 < (mudRecv P mud now packet localAddr ra buf fresh).1 →
      read48 packet ≠ 0 ∧
        (mudRecv P mud now packet localAddr ra buf fresh).2.1 ≠ none) := by
  unfold mudRecv
  by_cases h1 : packet.length ≤ 22
  · rw [if_pos h1]
    exact ⟨fun _ => ⟨rfl, rfl⟩, fun h => absurd h (by simp)⟩
  · rw [if_neg h1]
    by_cases h2 : read48 packet = 0 ∧ packet.length < 28
    · rw [if_pos h2]
      exact ⟨fun _ => ⟨rfl, rfl⟩, fun h => absurd h (by simp)⟩
    · rw [if_neg h2]
      by_cases h3 : mud.timeTolerance ≤ absDiff now (sendTimeOf packet)
      · rw [if_pos h3]
        exact ⟨fun _ => ⟨rfl, rfl⟩, fun h => absurd h (by simp)⟩
      · rw [if_neg h3]
        by_cases h4 : read48 packet = 0 ∧ (P.dec mud.crypto.priv.aes
            mud.crypto.priv.decryptKey (List.replicate 16 0)
            (packet.take (packet.length - 16))
            (packet.drop (packet.length - 16))).isNone
        · rw [if_pos h4]
          exact ⟨fun _ => ⟨rfl, rfl⟩, fun h => absurd h (by simp)⟩
        · rw [if_neg h4]
          cases localAddr with
          | none => exact ⟨fun _ => ⟨rfl, rfl⟩, fun h => absurd h (by simp)⟩
          | some la =>
            cases hf : findPath mud.paths la ra with
            | some ip =>
              simp only [hf]
              by_cases h0 : read48 packet = 0
              · rw [if_pos h0]
                have hr := mudRecvPath_ctrl_ret P mud ip.1 ip.2 now
                  (sendTimeOf packet) packet
                exact ⟨fun _ => hr, fun h => absurd h (by rw [hr.1]; simp)⟩
              · rw [if_neg h0]
                exact ⟨fun h => absurd h h0,
                  fun h => ⟨h0, mudRecvPath_data_pos P mud ip.1 ip.2 now
                    (sendTimeOf packet) packet buf fresh h⟩⟩
            | none =>
              simp only [hf]
              by_cases h0 : read48 packet = 0
              · rw [if_pos h0]
                have hr := mudRecvPath_ctrl_ret P
                  { mud with paths := newPath la ra :: mud.paths } 0
                  (newPath la ra) now (sendTimeOf packet) packet
                exact ⟨fun _ => hr, fun h => absurd h (by rw [hr.1]; simp)⟩
              · rw [if_neg h0]
                exact ⟨fun h => absurd h h0, fun h => absurd h (by simp)⟩

/-- Witness for C10 at a concrete authenticated in-tolerance ping. -/
theorem claimC10_witness :
    (mudRecv aeadToy
        { sendTimeout := MUD_SEND_TIMEOUT, timeTolerance := MUD_TIME_TOLERANCE,
          paths := [newPath 1 2], crypto := ringOne,
          mtu := { sendTime := 0, remote := 0, localMtu := 1400 } }
        1500 (List.replicate 6 0 ++ write48 1000 ++ List.replicate 16 0)
        (some 1) 2 100 [3]).1 = 0 ∧
      (mudRecv aeadToy
        { sendTimeout := MUD_SEND_TIMEOUT, timeTolerance := MUD_TIME_TOLERANCE,
          paths := [newPath 1 2], crypto := ringOne,
          mtu := { sendTime := 0, remote := 0, localMtu := 1400 } }
        1500 (List.replicate 6 0 ++ write48 1000 ++ List.replicate 16 0)
        (some 1) 2 100 [3]).2.1 = none :=
  (claimC10 aeadToy _ 1500 _ (some 1) 2 100 [3]).1 (by decide)

/-- Every snapshot recorded by the selection loop — immediate
transmissions and the tracked minimal path — is a non-backup path,
provided the incoming tracked path (if any) is non-backup. -/
theorem sendLoop_snap (now st : Nat) :
    ∀ (L : List Path) (i : Nat) (lm : Int) (pm : Option (Nat × Path)),
      (∀ jp, pm = some jp → jp.2.bakLocal = false) →
      (∀ jp, jp ∈ (sendLoop now st i lm pm L).2.1 → jp.2.bakLocal = false) ∧
      (∀ jp, (sendLoop now st i lm pm L).2.2.2 = some jp → jp.2.bakLocal = false) := by
  intro L
  induction L with
  | nil =>
    intro i lm pm hpm
    refine ⟨fun jp hjp => ?_, fun jp hjp => ?_⟩
    · simp [sendLoop] at hjp
    · simp only [sendLoop] at hjp
      exact hpm jp hjp
  | cons p ps ih =>
    intro i lm pm hpm
    by_cases hb : p.bakLocal = true
    · have he : sendLoop now st i lm pm (p :: ps) =
          (p :: (sendLoop now st (i + 1) lm pm ps).1,
            (sendLoop now st (i + 1) lm pm ps).2) := by
        simp only [sendLoop]
        rw [if_pos hb]
      rw [he]
      exact ih (i + 1) lm pm hpm
    · have hbf : p.bakLocal = false := by simp at hb; exact hb
      by_cases ht : mudTimeout now p.recvTime st
      · have he : sendLoop now st i lm pm (p :: ps) =
            ({ p with sendTime := now, limit := toUInt64 (limitOf now p) } ::
                (sendLoop now st (i + 1) lm pm ps).1,
              (i, p) :: (sendLoop now st (i + 1) lm pm ps).2.1,
              (sendLoop now st (i + 1) lm pm ps).2.2) := by
          simp only [sendLoop]
          rw [if_neg hb, if_pos ht]
        rw [he]
        obtain ⟨ih1, ih2⟩ := ih (i + 1) lm pm hpm
        refine ⟨fun jp hjp => ?_, ih2⟩
        rcases List.mem_cons.mp hjp with hh | hh
        · rw [hh]
          exact hbf
        · exact ih1 jp hh
      · by_cases hl : lm > limitOf now p
        · have he : sendLoop now st i lm pm (p :: ps) =
              (p :: (sendLoop now st (i + 1) (limitOf now p) (some (i, p)) ps).1,
                (sendLoop now st (i + 1) (limitOf now p) (some (i, p)) ps).2) := by
            simp only [sendLoop]
            rw [if_neg hb, if_neg ht, if_pos hl]
          rw [he]
          refine ih (i + 1) (limitOf now p) (some (i, p)) fun jp hjp => ?_
          have : (i, p) = jp := by injection hjp
          rw [← this]
          exact hbf
        · have he : sendLoop now st i lm pm (p :: ps) =
              (p :: (sendLoop now st (i + 1) lm pm ps).1,
                (sendLoop now st (i + 1) lm pm ps).2) := by
            simp only [sendLoop]
            rw [if_neg hb, if_neg ht, if_neg hl]
          rw [he]
          exact ih (i + 1) lm pm hpm

/-- When the selection loop ends without a tracked path, it also started
without one and every path in the list was backup, timed out, or had a
deadline at `INT64_MAX` (the initial minimum, which only decreases). -/
theorem sendLoop_none (now st : Nat) :
    ∀ (L : List Path) (i : Nat) (lm : Int) (pm : Option (Nat × Path)),
      (pm = none → lm = INT64MAX) →
      (sendLoop now st i lm pm L).2.2.2 = none →
      pm = none ∧ ∀ q ∈ L, q.bakLocal = true ∨ mudTimeout now q.recvTime st ∨
        INT64MAX ≤ limitOf now q := by
  intro L
  induction L with
  | nil =>
    intro i lm pm hinv hres
    simp only [sendLoop] at hres
    exact ⟨hres, fun q hq => absurd hq (List.not_mem_nil q)⟩
  | cons p ps ih =>
    intro i lm pm hinv hres
    by_cases hb : p.bakLocal = true
    · have he : (sendLoop now st i lm pm (p :: ps)).2.2.2 =
          (sendLoop now st (i + 1) lm pm ps).2.2.2 := by
        simp only [sendLoop]
        rw [if_pos hb]
      rw [he] at hres
      obtain ⟨h1, h2⟩ := ih (i + 1) lm pm hinv hres
      refine ⟨h1, fun q hq => ?_⟩
      rcases List.mem_cons.mp hq with hh | hh
      · rw [hh]; exact Or.inl hb
      · exact h2 q hh
    · by_cases ht : mudTimeout now p.recvTime st
      · have he : (sendLoop now st i lm pm (p :: ps)).2.2.2 =
            (sendLoop now st (i + 1) lm pm ps).2.2.2 := by
          simp only [sendLoop]
          rw [if_neg hb, if_pos ht]
        rw [he] at hres
        obtain ⟨h1, h2⟩ := ih (i + 1) lm pm hinv hres
        refine ⟨h1, fun q hq => ?_⟩
        rcases List.mem_cons.mp hq with hh | hh
        · rw [hh]; exact Or.inr (Or.inl ht)
        · exact h2 q hh
      · by_cases hl : lm > limitOf now p
        · have he : (sendLoop now st i lm pm (p :: ps)).2.2.2 =
              (sendLoop now st (i + 1) (limitOf now p) (some (i, p)) ps).2.2.2 := by
            simp only [sendLoop]
            rw [if_neg hb, if_neg ht, if_pos hl]
          rw [he] at hres
          have := (ih (i + 1) (limitOf now p) (some (i, p))
            (fun h => absurd h (by simp)) hres).1
          exact absurd this (by simp)
        · have he : (sendLoop now st i lm pm (p :: ps)).2.2.2 =
              (sendLoop now st (i + 1) lm pm ps).2.2.2 := by
            simp only [sendLoop]
            rw [if_neg hb, if_neg ht, if_neg hl]
          rw [he] at hres
          obtain ⟨h1, h2⟩ := ih (i + 1) lm pm hinv hres
          refine ⟨h1, fun q hq => ?_⟩
          rcases List.mem_cons.mp hq with hh | hh
          · rw [hh]
            right; right
            rw [← hinv h1]
            exact not_lt.mp hl
          · exact h2 q hh

/-- Every data emission of `mud_send` comes from the selection loop: an
immediate transmission, the tracked minimal path, or — only when no
minimal path was tracked — the first-backup fallback. -/
theorem mudSendData_emissions (P : Prims) (mud : Mud) (now : Nat) (data : List Nat) :
    ∀ jp ∈ (mudSendData P mud now data).2.2.2,
      jp ∈ (sendLoop now mud.sendTimeout 0 INT64MAX none mud.paths).2.1 ∨
      (sendLoop now mud.sendTimeout 0 INT64MAX none mud.paths).2.2.2 = some jp ∨
      ((sendLoop now mud.sendTimeout 0 INT64MAX none mud.paths).2.2.2 = none ∧
        firstBak 0 (sendLoop now mud.sendTimeout 0 INT64MAX none mud.paths).1 = some jp) := by
  intro jp hjp
  unfold mudSendData at hjp
  by_cases h0 : data.length = 0
  · rw [if_pos h0] at hjp
    simp at hjp
  · rw [if_neg h0] at hjp
    by_cases h1 : data.length > toUInt64 (mudGetMtu mud)
    · rw [if_pos h1] at hjp
      simp at hjp
    · rw [if_neg h1] at hjp
      cases hE : mudEncrypt P mud.crypto now 2048 data with
      | none =>
        simp only [hE] at hjp
        simp at hjp
      | some pkt =>
        simp only [hE] at hjp
        obtain ⟨r, hr⟩ :
            ∃ r, sendLoop now mud.sendTimeout 0 INT64MAX none mud.paths = r := ⟨_, rfl⟩
        rw [hr] at hjp ⊢
        cases hpm : r.2.2.2 with
        | some jp0 =>
          simp only [hpm] at hjp
          simp at hjp
          rcases hjp with h | h
          · exact Or.inl h
          · right; left
            rw [h]
        | none =>
          simp only [hpm] at hjp
          cases hFB : firstBak 0 r.1 with
          | some jp0 =>
            simp only [hFB] at hjp
            simp at hjp
            rcases hjp with h | h
            · exact Or.inl h
            · right; right
              exact ⟨rfl, by rw [h]⟩
          | none =>
            simp only [hFB] at hjp
            exact Or.inl hjp

/-- C5 counterexample to the claim as stated: the non-backup path at
position 0 has never been received on (`recv_time = 0`), so at `now = 5`
it satisfies the claim's `now − recv_time < send_timeout` (5 < 1000), yet
`mud_send` also transmits the data frame on the backup path at position 1:
the code treats `recv_time = 0` as timed out (`mud_timeout`'s `!last`
clause), probes the path, tracks no minimal path, and falls back to the
first backup. -/
theorem claimC5_counter :
    (mudC5.paths.getD 0 Path.zero).bakLocal = false ∧
      5 - (mudC5.paths.getD 0 Path.zero).recvTime < mudC5.sendTimeout ∧
      (mudC5.paths.getD 1 Path.zero).bakLocal = true ∧
      ((mudSend aeadToy mudC5 (fun _ => 5) 5 [10, 11, 12]).2.2.2.2.map
        (fun jp => jp.2.bakLocal)) = [false, true] := by
  refine ⟨by decide, by decide, by decide, by decide⟩

/-- C5 (amended): if some path with `bak.local = 0` has been received on
and is not timed out in the sense of `mud_timeout` (`recv_time ≠ 0` and
not `now > recv_time` with `now − recv_time ≥ send_timeout`), and its
computed deadline is below `INT64_MAX`, then no data emission of this call
targets a backup path. -/
theorem claimC5 (P : Prims) (mud : Mud) (now : Nat) (data : List Nat) (q : Path)
    (hq : q ∈ mud.paths) (hqb : q.bakLocal = false)
    (hfresh : ¬mudTimeout now q.recvTime mud.sendTimeout)
    (hlim : limitOf now q < INT64MAX) :
    ∀ jp ∈ (mudSendData P mud now data).2.2.2, jp.2.bakLocal = false := by
  intro jp hjp
  rcases mudSendData_emissions P mud now data jp hjp with h | h | ⟨hnone, hfb⟩
  · exact (sendLoop_snap now mud.sendTimeout mud.paths 0 INT64MAX none
      (fun jp h => by simp at h)).1 jp h
  · exact (sendLoop_snap now mud.sendTimeout mud.paths 0 INT64MAX none
      (fun jp h => by simp at h)).2 jp h
  · exfalso
    obtain ⟨-, hall⟩ := sendLoop_none now mud.sendTimeout mud.paths 0 INT64MAX none
      (fun _ => rfl) hnone
    rcases hall q hq with h1 | h1 | h1
    · rw [hqb] at h1
      exact Bool.false_ne_true h1
    · exact hfresh h1
    · exact absurd hlim (not_lt.mpr h1)

/-- Witness for C5: a single fresh non-backup path receives the frame. -/
theorem claimC5_witness : ((0 : Nat), pW5).2.bakLocal = false :=
  claimC5 aeadToy mudW5 60 [10, 11, 12] pW5 (by decide) (by decide) (by decide)
    (by decide) (0, pW5) (by decide)

theorem set_getElem? (L : List Path) (i : Nat) (v : Path) (h : i < L.length) :
    (L.set i v)[i]? = some v := by
  induction L generalizing i with
  | nil => simp at h
  | cons a t ih =>
    cases i with
    | zero => simp [List.set]
    | succ j =>
      have hj : j < t.length := by simpa using h
      simpa [List.set] using ih j hj

theorem set_getD (L : List Path) (i : Nat) (v : Path) (h : i < L.length) :
    (L.set i v).getD i Path.zero = v := by
  rw [List.getD_eq_getElem?_getD, set_getElem? L i v h]
  rfl

theorem findPath_lt (L : List Path) (la ra : Nat) (ip : Nat × Path)
    (h : findPath L la ra = some ip) : ip.1 < L.length := by
  induction L generalizing ip with
  | nil => simp [findPath] at h
  | cons a t ih =>
    unfold findPath at h
    by_cases hm : a.localAddr = la ∧ a.remoteAddr = ra
    · rw [if_pos hm] at h
      injection h with h
      rw [← h]
      show 0 < t.length + 1
      omega
    · rw [if_neg hm] at h
      cases hf : findPath t la ra with
      | none => rw [hf] at h; simp at h
      | some q =>
        rw [hf] at h
        have h2 : (q.1 + 1, q.2) = ip := by simpa using h
        rw [← h2]
        have hq := ih q hf
        show q.1 + 1 < t.length + 1
        omega

/-- Reduction of `mud_recv` to the control dispatch for an in-tolerance,
authenticated control packet received on a known path. -/
theorem mudRecv_ctrl_reduce (P : Prims) (mud : Mud) (now : Nat) (packet : List Nat)
    (la ra buf : Nat) (fresh : List Nat) (ip : Nat × Path)
    (hlen : 22 < packet.length) (h28 : ¬packet.length < 28)
    (hz : read48 packet = 0)
    (htol : absDiff now (read48 (packet.drop 6)) < mud.timeTolerance)
    (hmac : (P.dec mud.crypto.priv.aes mud.crypto.priv.decryptKey
      (List.replicate 16 0) (packet.take (packet.length - 16))
      (packet.drop (packet.length - 16))).isNone = false)
    (hfind : findPath mud.paths la ra = some ip) :
    mudRecv P mud now packet (some la) ra buf fresh =
      mudRecvCtrlPath P mud ip.1 ip.2 now (sendTimeOf packet) packet := by
  unfold mudRecv
  rw [if_neg (by omega), if_neg (by simp [hz]; omega),
      if_neg (by simp [sendTimeOf, hz]; omega),
      if_neg (fun hc => by rw [hmac] at hc; exact Bool.false_ne_true hc.2)]
  simp [hfind, hz]

/-- The bakx dispatch marks the receiving path as backup on both sides:
`bak.local` is set to 1 and `bak.remote` to the payload byte. -/
theorem mudRecvCtrlPath_bakx (P : Prims) (mud : Mud) (i : Nat) (p : Path)
    (now st : Nat) (packet : List Nat) (h29 : packet.length = 29)
    (hi : i < mud.paths.length) :
    ((mudRecvCtrlPath P mud i p now st packet).2.2.1.paths.getD i Path.zero).bakLocal
        = true ∧
      ((mudRecvCtrlPath P mud i p now st packet).2.2.1.paths.getD i Path.zero).bakRemote
        = Int.ofNat (packet.getD 12 0) := by
  unfold mudRecvCtrlPath
  rw [if_neg (by omega), if_neg (by omega), if_neg (by omega), if_pos h29]
  by_cases ha : (mudRecvPathUpdate p now st).1.active = true <;>
    simp [ha, set_getElem?, hi]

/-- A locally-backup path never produces a pong in the per-path timing
update. -/
theorem pathUpdate_pong_bak (p : Path) (now st : Nat) (hb : p.bakLocal = true) :
    (mudRecvPathUpdate p now st).2 = false := by
  unfold mudRecvPathUpdate
  rw [if_neg (by simp [hb])]

/-- With the pong suppressed, no control branch emits a pong. -/
theorem mudRecvCtrlPath_nopong (P : Prims) (mud : Mud) (i : Nat) (p : Path)
    (now st : Nat) (packet : List Nat)
    (hu : (mudRecvPathUpdate p now st).2 = false) :
    CtrlKind.pong ∉ (mudRecvCtrlPath P mud i p now st packet).2.2.2 := by
  unfold mudRecvCtrlPath
  simp only [hu]
  by_cases h94 : packet.length = 94
  · rw [if_pos h94]
    by_cases hkx : (mudRecvKeyx P mud.crypto now ((packet.drop 12).take 66)).2 = true <;>
      simp [hkx]
  · rw [if_neg h94]
    by_cases h34 : packet.length = 34
    · rw [if_pos h34]
      by_cases ha : (mudRecvPathUpdate p now st).1.active = true <;> simp [ha]
    · rw [if_neg h34]
      by_cases h46 : packet.length = 46
      · rw [if_pos h46]
        simp
      · rw [if_neg h46]
        by_cases h29 : packet.length = 29
        · rw [if_pos h29]
          by_cases ha : (mudRecvPathUpdate p now st).1.active = true <;> simp [ha]
        · rw [if_neg h29]
          simp

/-- The data dispatch only ever emits the pong decided by the timing
update. -/
theorem mudRecvDataPath_reps (P : Prims) (mud : Mud) (i : Nat) (p : Path)
    (now st : Nat) (packet : List Nat) (buf : Nat) (fresh : List Nat) :
    (mudRecvDataPath P mud i p now st packet buf fresh).2.2.2 =
      if (mudRecvPathUpdate p now st).2 then [CtrlKind.pong] else [] := by
  obtain ⟨res, hres⟩ : ∃ r, mudDecrypt P fresh mud.crypto buf packet = r := ⟨_, rfl⟩
  rw [mudRecvDataPath_cases P mud i p now st packet buf fresh res hres]
  by_cases hm : res.1 = -1
  · rw [if_pos hm]
  · rw [if_neg hm]

/-- C9: (a) a received bakx control packet (total size 29) sets the
receiving path's `bak.local` flag and stores the payload byte in
`bak.remote`; consequently (b) a path with `bak.local` set never answers
with a pong, and (c) in the egress selector a backup path can receive the
data frame only through the fallback, i.e. only when the non-backup
selection tracked no path at all. -/
theorem claimC9 :
    (∀ (P : Prims) (mud : Mud) (now : Nat) (packet : List Nat) (la ra buf : Nat)
        (fresh : List Nat) (ip : Nat × Path),
      packet.length = 29 → read48 packet = 0 →
      absDiff now (read48 (packet.drop 6)) < mud.timeTolerance →
      (P.dec mud.crypto.priv.aes mud.crypto.priv.decryptKey (List.replicate 16 0)
        (packet.take (packet.length - 16)) (packet.drop (packet.length - 16))).isNone
          = false →
      findPath mud.paths la ra = some ip →
      ((mudRecv P mud now packet (some la) ra buf fresh).2.2.1.paths.getD ip.1
          Path.zero).bakLocal = true ∧
        ((mudRecv P mud now packet (some la) ra buf fresh).2.2.1.paths.getD ip.1
          Path.zero).bakRemote = Int.ofNat (packet.getD 12 0)) ∧
    (∀ (P : Prims) (mud : Mud) (now : Nat) (packet : List Nat) (la ra buf : Nat)
        (fresh : List Nat) (ip : Nat × Path),
      findPath mud.paths la ra = some ip → ip.2.bakLocal = true →
      CtrlKind.pong ∉ (mudRecv P mud now packet (some la) ra buf fresh).2.2.2) ∧
    (∀ (P : Prims) (mud : Mud) (now : Nat) (data : List Nat) (jp : Nat × Path),
      jp ∈ (mudSendData P mud now data).2.2.2 → jp.2.bakLocal = true →
      (sendLoop now mud.sendTimeout 0 INT64MAX none mud.paths).2.2.2 = none) := by
  refine ⟨?_, ?_, ?_⟩
  · intro P mud now packet la ra buf fresh ip h29 hz htol hmac hfind
    rw [mudRecv_ctrl_reduce P mud now packet la ra buf fresh ip (by omega)
      (by omega) hz htol hmac hfind]
    exact mudRecvCtrlPath_bakx P mud ip.1 ip.2 now (sendTimeOf packet) packet h29
      (findPath_lt mud.paths la ra ip hfind)
  · intro P mud now packet la ra buf fresh ip hfind hbak
    unfold mudRecv
    by_cases h1 : packet.length ≤ 22
    · rw [if_pos h1]; simp
    · rw [if_neg h1]
      by_cases h2 : read48 packet = 0 ∧ packet.length < 28
      · rw [if_pos h2]; simp
      · rw [if_neg h2]
        by_cases h3 : mud.timeTolerance ≤ absDiff now (sendTimeOf packet)
        · rw [if_pos h3]; simp
        · rw [if_neg h3]
          by_cases h4 : read48 packet = 0 ∧ (P.dec mud.crypto.priv.aes
              mud.crypto.priv.decryptKey (List.replicate 16 0)
              (packet.take (packet.length - 16))
              (packet.drop (packet.length - 16))).isNone
          · rw [if_pos h4]; simp
          · rw [if_neg h4]
            simp only [hfind]
            by_cases h0 : read48 packet = 0
            · rw [if_pos h0]
              exact mudRecvCtrlPath_nopong P mud ip.1 ip.2 now (sendTimeOf packet)
                packet (pathUpdate_pong_bak ip.2 now (sendTimeOf packet) hbak)
            · rw [if_neg h0]
              rw [mudRecvDataPath_reps P mud ip.1 ip.2 now (sendTimeOf packet)
                packet buf fresh,
                pathUpdate_pong_bak ip.2 now (sendTimeOf packet) hbak]
              simp
  · intro P mud now data jp hjp hbak
    rcases mudSendData_emissions P mud now data jp hjp with h | h | ⟨hnone, -⟩
    · have hf := (sendLoop_snap now mud.sendTimeout mud.paths 0 INT64MAX none
        (fun jq hq => by simp at hq)).1 jp h
      rw [hbak] at hf
      exact absurd hf (by simp)
    · have hf := (sendLoop_snap now mud.sendTimeout mud.paths 0 INT64MAX none
        (fun jq hq => by simp at hq)).2 jp h
      rw [hbak] at hf
      exact absurd hf (by simp)
    · exact hnone

/-- Witness for C9: a concrete bakx packet received on the only path. -/
theorem claimC9_witness :
    ((mudRecv aeadToy mudW9 1500 bakxC9 (some 1) 2 100 [3]).2.2.1.paths.getD 0
        Path.zero).bakLocal = true ∧
      ((mudRecv aeadToy mudW9 1500 bakxC9 (some 1) 2 100 [3]).2.2.1.paths.getD 0
        Path.zero).bakRemote = Int.ofNat (bakxC9.getD 12 0) :=
  claimC9.1 aeadToy mudW9 1500 bakxC9 1 2 100 [3] (0, newPath 1 2) (by decide)
    (by decide) (by decide) (by decide) (by decide)

/-- Emissions of the control fold carry positions at or past the starting
index. -/
theorem sendCtrlFold_ge (st : Nat) (clk : Nat → Nat) :
    ∀ (L : List Path) (c : CryptoRing) (m : MtuState) (i : Nat) (jk : Nat × CtrlKind),
      jk ∈ (sendCtrlFold st clk c m i L).2.2.2 → i ≤ jk.1 := by
  intro L
  induction L with
  | nil =>
    intro c m i jk h
    simp [sendCtrlFold] at h
  | cons p ps ih =>
    intro c m i jk h
    simp only [sendCtrlFold] at h
    rcases List.mem_append.mp h with h | h
    · cases he : (ctrlStep c m st p (clk i)).2.2.2 with
      | some k =>
        rw [he] at h
        simp at h
        rw [h]
      | none =>
        rw [he] at h
        simp at h
    · have := ih (ctrlStep c m st p (clk i)).1 (ctrlStep c m st p (clk i)).2.1
        (i + 1) jk h
      omega

/-- Each path position appears at most once among the control-tick
emissions. -/
theorem sendCtrlFold_nodup (st : Nat) (clk : Nat → Nat) :
    ∀ (L : List Path) (c : CryptoRing) (m : MtuState) (i : Nat),
      ((sendCtrlFold st clk c m i L).2.2.2.map Prod.fst).Nodup := by
  intro L
  induction L with
  | nil =>
    intro c m i
    simp [sendCtrlFold]
  | cons p ps ih =>
    intro c m i
    simp only [sendCtrlFold]
    cases he : (ctrlStep c m st p (clk i)).2.2.2 with
    | none =>
      simp only [he, List.nil_append]
      exact ih _ _ (i + 1)
    | some k =>
      simp only [he, List.singleton_append, List.map_cons, List.nodup_cons]
      constructor
      · intro hmem
        obtain ⟨jk, hjk, hfst⟩ := List.mem_map.mp hmem
        have := sendCtrlFold_ge st clk ps (ctrlStep c m st p (clk i)).1
          (ctrlStep c m st p (clk i)).2.1 (i + 1) jk hjk
        omega
      · exact ih _ _ (i + 1)

/-- C6: (1) one control tick sends at most one message per path — the
emitted path positions are pairwise distinct; (2) the message chosen for a
path is exactly the specification's fixed priority choice (keyx, else
mtux, else bakx, else ping on an active path; keyx on bad-key only on a
non-active path); (3) a keyx sent on a non-active path clears `bad_key`. -/
theorem claimC6 :
    (∀ (mud : Mud) (clk : Nat → Nat),
      ((mudSendCtrl mud clk).2.map Prod.fst).Nodup) ∧
    (∀ (c : CryptoRing) (m : MtuState) (st : Nat) (p : Path) (now : Nat),
      (ctrlStep c m st p now).2.2.2 = ctrlPriorityChoice c m st p now) ∧
    (∀ (c : CryptoRing) (m : MtuState) (st : Nat) (p : Path) (now : Nat),
      p.active = false → c.badKey = true → mudTimeout now c.sendTime st →
      (ctrlStep c m st p now).1.badKey = false) := by
  refine ⟨?_, ?_, ?_⟩
  · intro mud clk
    unfold mudSendCtrl
    exact sendCtrlFold_nodup mud.sendTimeout clk mud.paths mud.crypto mud.mtu 0
  · intro c m st p now
    unfold ctrlStep ctrlPriorityChoice
    cases hp : p.active with
    | false =>
      have hna : ¬false = true := by simp
      rw [if_pos hna, if_neg hna]
      by_cases hbk : c.badKey = true ∧ mudTimeout now c.sendTime st
      · rw [if_pos hbk, if_pos hbk]
      · rw [if_neg hbk, if_neg hbk]
    | true =>
      have hta : (true : Bool) = true := rfl
      rw [if_neg (not_not_intro hta), if_pos hta]
      by_cases h1 : mudTimeout now c.sendTime st ∧
          mudTimeout now c.recvTime MUD_KEYX_TIMEOUT
      · rw [if_pos h1, if_pos h1]
      · rw [if_neg h1, if_neg h1]
        by_cases h2 : m.remote = 0 ∧ mudTimeout now m.sendTime st
        · rw [if_pos h2, if_pos h2]
        · rw [if_neg h2, if_neg h2]
          by_cases h3 : p.bakLocal = true ∧ p.bakRemote = 0 ∧
              mudTimeout now p.bakSendTime st
          · rw [if_pos h3, if_pos h3]
          · rw [if_neg h3, if_neg h3]
            by_cases h4 : p.sendTime = 0
            · rw [if_pos h4, if_pos h4]
            · rw [if_neg h4, if_neg h4]
  · intro c m st p now hp hbk hto
    unfold ctrlStep
    rw [if_pos (by simp [hp]), if_pos ⟨hbk, hto⟩]

/-- Witness for C6 at the non-active bad-key scenario. -/
theorem claimC6_witness : (ctrlStep ringBad mtuW 1000 (newPath 1 2) 500).1.badKey = false :=
  claimC6.2.2 ringBad mtuW 1000 (newPath 1 2) 500 (by decide) (by decide) (by decide)

/-- The control step never touches the MTU values (only the MTU clock). -/
theorem ctrlStep_mtu (c : CryptoRing) (m : MtuState) (st : Nat) (p : Path) (now : Nat) :
    (ctrlStep c m st p now).2.1.remote = m.remote ∧
      (ctrlStep c m st p now).2.1.localMtu = m.localMtu := by
  unfold ctrlStep
  split_ifs <;> exact ⟨rfl, rfl⟩

theorem sendCtrlFold_mtu (st : Nat) (clk : Nat → Nat) :
    ∀ (L : List Path) (c : CryptoRing) (m : MtuState) (i : Nat),
      (sendCtrlFold st clk c m i L).2.1.remote = m.remote ∧
        (sendCtrlFold st clk c m i L).2.1.localMtu = m.localMtu := by
  intro L
  induction L with
  | nil =>
    intro c m i
    exact ⟨rfl, rfl⟩
  | cons p ps ih =>
    intro c m i
    have hstep := ctrlStep_mtu c m st p (clk i)
    have htail := ih (ctrlStep c m st p (clk i)).1 (ctrlStep c m st p (clk i)).2.1 (i + 1)
    simp only [sendCtrlFold]
    exact ⟨htail.1.trans hstep.1, htail.2.trans hstep.2⟩

theorem mudSendCtrl_mtu (mud : Mud) (clk : Nat → Nat) :
    (mudSendCtrl mud clk).1.mtu.remote = mud.mtu.remote ∧
      (mudSendCtrl mud clk).1.mtu.localMtu = mud.mtu.localMtu := by
  unfold mudSendCtrl
  exact sendCtrlFold_mtu mud.sendTimeout clk mud.paths mud.crypto mud.mtu 0

theorem toUInt64_nonneg (g : Int) (h0 : 0 ≤ g) (h31 : g < 2 ^ 31) :
    toUInt64 g = g.toNat := by
  unfold toUInt64
  omega

/-- `mud_send` rejects an oversized datagram before any data emission. -/
theorem mudSendData_toobig (P : Prims) (mud : Mud) (now : Nat) (data : List Nat)
    (h0 : data.length ≠ 0) (hg : data.length > toUInt64 (mudGetMtu mud)) :
    mudSendData P mud now data = (-1, some Errno.emsgsize, mud, []) := by
  unfold mudSendData
  rw [if_neg h0, if_pos hg]

theorem mudSend_eq (P : Prims) (mud : Mud) (clk : Nat → Nat) (now : Nat)
    (data : List Nat) (s : Mud × List (Nat × CtrlKind))
    (r : Int × Option Errno × Mud × List (Nat × Path))
    (hs : mudSendCtrl mud clk = s) (hr : mudSendData P s.1 now data = r) :
    mudSend P mud clk now data = (r.1, r.2.1, r.2.2.1, s.2, r.2.2.2) := by
  unfold mudSend
  simp only [hs, hr]

/-- C7 counterexample to the claim as stated: after an mtux advertising
`2^32 − 1` the C `int` cast stores `mtu.remote = -1`, `mud_get_mtu`
returns `-1`, and a 100-byte `mud_send` — although `100 > -1` — does not
fail with the message-size error: the `(size_t)` cast turns `-1` into
`2^64 - 1`, the check passes, and the frame is emitted. -/
theorem claimC7_counter :
    mudC7after.mtu.remote = -1 ∧
      mudGetMtu mudC7after = -1 ∧
      (100 : Int) > mudGetMtu mudC7after ∧
      (mudSend aeadToy mudC7after (fun _ => 2000) 2000 (List.replicate 100 8)).1 = 122 ∧
      (mudSend aeadToy mudC7after (fun _ => 2000) 2000 (List.replicate 100 8)).2.1 = none ∧
      (mudSend aeadToy mudC7after (fun _ => 2000) 2000
        (List.replicate 100 8)).2.2.2.2.length = 1 := by
  refine ⟨by decide, by decide, by decide, by decide, by decide, by decide⟩

/-- C7 (amended): `mud_get_mtu` returns `min(local, remote)` when the
peer's MTU is known and `local` otherwise; and provided `mud_get_mtu()` is
non-negative (it is a C `int`, hence below `2^31`), a `mud_send` whose
payload exceeds it returns -1 with `EMSGSIZE` and emits no data frame on
any path. -/
theorem claimC7 :
    (∀ m : Mud, mudGetMtu m =
      if m.mtu.remote = 0 then m.mtu.localMtu else min m.mtu.localMtu m.mtu.remote) ∧
    (∀ (P : Prims) (mud : Mud) (clk : Nat → Nat) (now : Nat) (data : List Nat),
      0 ≤ mudGetMtu mud → mudGetMtu mud < 2 ^ 31 →
      (mudGetMtu mud).toNat < data.length →
      (mudSend P mud clk now data).1 = -1 ∧
        (mudSend P mud clk now data).2.1 = some Errno.emsgsize ∧
        (mudSend P mud clk now data).2.2.2.2 = []) := by
  constructor
  · intro m
    unfold mudGetMtu
    split_ifs with h1 h2 h2 <;> omega
  · intro P mud clk now data h0 h31 hlen
    obtain ⟨s, hs⟩ : ∃ s, mudSendCtrl mud clk = s := ⟨_, rfl⟩
    have hmtu : mudGetMtu s.1 = mudGetMtu mud := by
      have h := mudSendCtrl_mtu mud clk
      rw [hs] at h
      unfold mudGetMtu
      rw [h.1, h.2]
    have hbig : data.length > toUInt64 (mudGetMtu s.1) := by
      rw [hmtu, toUInt64_nonneg _ h0 (by omega)]
      exact hlen
    have hne : data.length ≠ 0 := by omega
    have hr := mudSendData_toobig P s.1 now data hne hbig
    rw [mudSend_eq P mud clk now data s (-1, some Errno.emsgsize, s.1, []) hs hr]
    exact ⟨rfl, rfl, rfl⟩

/-- Witness for C7 at a concrete oversized payload. -/
theorem claimC7_witness :
    (mudSend aeadToy mudW9 (fun _ => 7) 7 (List.replicate 1401 5)).1 = -1 ∧
      (mudSend aeadToy mudW9 (fun _ => 7) 7 (List.replicate 1401 5)).2.1 =
        some Errno.emsgsize ∧
      (mudSend aeadToy mudW9 (fun _ => 7) 7 (List.replicate 1401 5)).2.2.2.2 = [] :=
  claimC7.2 aeadToy mudW9 (fun _ => 7) 7 (List.replicate 1401 5) (by decide)
    (by decide) (by decide)

end MudModel
